import Mathlib

/-!
Verification of the DOT-Backend order/wallet core.

Shallow embedding of the order state machine (backend/app/routers/orders_router.py),
the wallet ledger (app/services/wallet_service.py), the pricing helper
(app/services/maps_service.py), the audit-log read path
(app/routers/admin_router.py) and the websocket location handler
(app/routers/websocket_router.py).

Modelling conventions:
* Python floats for money/coordinates are modelled as rationals (ℚ); the
  claims under study are about control flow and exact arithmetic identities,
  not float rounding.
* The SQLAlchemy `AsyncSession` is modelled explicitly: a `Session` carries
  the committed database and the pending (mutated, not yet committed) one.
  `db.commit()` promotes pending to committed.  An HTTP exception makes
  `get_db` roll the session back (database.py), so a handler that raises
  returns the committed database as it stood at the raise point.
* `datetime.utcnow()` / `func.now()` timestamps and autoincrement ids are
  drawn from a single monotone counter `DB.clock`.
-/

namespace DOT

/-- `OrderStatus` enum from app/models.py. -/
inductive OrderStatus where
  | pending
  | accepted
  | picked_up
  | in_transit
  | delivered
  | completed
  | cancelled
deriving DecidableEq, Repr

/-- `OrderType` enum from app/models.py. -/
inductive OrderType where
  | taxi
  | delivery
deriving DecidableEq, Repr

/-- `TransactionType` enum from app/models.py. -/
inductive TransactionType where
  | top_up
  | deduction
  | refund
deriving DecidableEq, Repr

/-- `Order` row from app/models.py (the columns the core touches). -/
structure Order where
  id : Nat
  type : OrderType
  status : OrderStatus
  customer_id : Nat
  driver_id : Option Nat
  pickup_lat : ℚ
  pickup_lng : ℚ
  pickup_address : Option String
  dropoff_lat : ℚ
  dropoff_lng : ℚ
  dropoff_address : Option String
  estimated_price : Option ℚ
  final_price : Option ℚ
  commission : ℚ
  recipient_name : Option String
  recipient_phone : Option String
  item_description : Option String
  item_price : Option ℚ
  recipient_location_token : Option String
  created_at : Nat
  accepted_at : Option Nat
  picked_up_at : Option Nat
  delivered_at : Option Nat
  completed_at : Option Nat
  cancelled_at : Option Nat
  cancellation_reason : Option String
  cancelled_by : Option Nat
deriving DecidableEq, Repr

/-- `OrderStatusLog` row from app/models.py. -/
structure OrderStatusLog where
  id : Nat
  order_id : Nat
  old_status : Option OrderStatus
  new_status : OrderStatus
  changed_by : Nat
  timestamp : Nat
  notes : Option String
deriving DecidableEq, Repr

/-- `Wallet` row from app/models.py. -/
structure Wallet where
  id : Nat
  user_id : Nat
  balance : ℚ
deriving DecidableEq, Repr

/-- `Transaction` row from app/models.py. -/
structure Transaction where
  id : Nat
  wallet_id : Nat
  type : TransactionType
  amount : ℚ
  description : String
  order_id : Option Nat
  admin_id : Option Nat
  created_at : Nat
deriving DecidableEq, Repr

/-- The relational store: the tables the core touches, plus the monotone
counter used for autoincrement ids and `func.now()` timestamps. -/
structure DB where
  orders : List Order
  logs : List OrderStatusLog
  wallets : List Wallet
  txns : List Transaction
  clock : Nat
deriving DecidableEq, Repr

def DB.empty : DB := ⟨[], [], [], [], 0⟩

/-- Draw a fresh id/timestamp and advance the clock. -/
def DB.fresh (db : DB) : Nat × DB :=
  (db.clock, { db with clock := db.clock + 1 })

/-- An open SQLAlchemy session: the committed store and the pending one
(committed plus the session's flushed-but-uncommitted mutations; queries see
the pending store because of autoflush). -/
structure Session where
  committed : DB
  pending : DB
deriving DecidableEq, Repr

/-- `db.commit()`. -/
def Session.commit (s : Session) : Session := ⟨s.pending, s.pending⟩

/-- Open a fresh request session over a committed store. -/
def Session.open (db : DB) : Session := ⟨db, db⟩

/-- Mutate the pending store only (ORM attribute assignment / `db.add`). -/
def Session.modifyPending (s : Session) (f : DB → DB) : Session :=
  { s with pending := f s.pending }

/-- Replace the order row with the same id (ORM row mutation). -/
def DB.updateOrder (db : DB) (o : Order) : DB :=
  { db with orders := db.orders.map (fun p => if p.id == o.id then o else p) }

/-- Replace the wallet row with the same id (ORM row mutation). -/
def DB.updateWallet (db : DB) (w : Wallet) : DB :=
  { db with wallets := db.wallets.map (fun p => if p.id == w.id then w else p) }

/-- `settings.DEFAULT_COMMISSION` from app/config.py. -/
def DEFAULT_COMMISSION : ℚ := 5000

namespace WalletService

/-- `WalletService.get_or_create_wallet` (app/services/wallet_service.py):
returns the existing wallet for the user or creates one with balance 0.
Note the creation path commits the session. -/
def get_or_create_wallet (s : Session) (user_id : Nat) : Wallet × Session :=
  match s.pending.wallets.find? (fun w => w.user_id == user_id) with
  | some w => (w, s)
  | none =>
      let (wid, db) := s.pending.fresh
      let w : Wallet := ⟨wid, user_id, 0⟩
      let s' := Session.commit { s with pending := { db with wallets := db.wallets ++ [w] } }
      (w, s')

/-- `WalletService.top_up` (app/services/wallet_service.py): adds `amount`
to the wallet balance (no positivity check) and appends a TOP_UP
transaction whose description references the acting admin. -/
def top_up (s : Session) (driver_id : Nat) (amount : ℚ) (admin_id : Nat) :
    Transaction × Session :=
  let (w, s) := get_or_create_wallet s driver_id
  let w' := { w with balance := w.balance + amount }
  let s := s.modifyPending (fun db => db.updateWallet w')
  let (tid, db) := s.pending.fresh
  let t : Transaction :=
    { id := tid, wallet_id := w.id, type := .top_up, amount := amount,
      description := "Wallet top-up by admin #" ++ toString admin_id,
      order_id := none, admin_id := some admin_id, created_at := tid }
  let s := Session.commit { s with pending := { db with txns := db.txns ++ [t] } }
  (t, s)

/-- `WalletService.deduct_commission` (app/services/wallet_service.py):
declines with `none` when the balance is below the amount, otherwise
decrements the balance and appends a DEDUCTION transaction tied to the
order.  `commission_amount = none` falls back to the default commission. -/
def deduct_commission (s : Session) (driver_id : Nat) (order_id : Nat)
    (commission_amount : Option ℚ) : Option Transaction × Session :=
  let (w, s) := get_or_create_wallet s driver_id
  let amount := commission_amount.getD DEFAULT_COMMISSION
  if w.balance < amount then
    (none, s)
  else
    let w' := { w with balance := w.balance - amount }
    let s := s.modifyPending (fun db => db.updateWallet w')
    let (tid, db) := s.pending.fresh
    let t : Transaction :=
      { id := tid, wallet_id := w.id, type := .deduction, amount := amount,
        description := "Commission for order #" ++ toString order_id,
        order_id := some order_id, admin_id := none, created_at := tid }
    let s := Session.commit { s with pending := { db with txns := db.txns ++ [t] } }
    (some t, s)

/-- `WalletService.can_accept_orders` (app/services/wallet_service.py):
true iff the (lazily created) wallet balance is at least the default
commission. -/
def can_accept_orders (s : Session) (driver_id : Nat) : Bool × Session :=
  let (w, s) := get_or_create_wallet s driver_id
  (decide (w.balance ≥ DEFAULT_COMMISSION), s)

/-- `WalletService.get_balance` (app/services/wallet_service.py). -/
def get_balance (s : Session) (user_id : Nat) : ℚ × Session :=
  let (w, s) := get_or_create_wallet s user_id
  (w.balance, s)

end WalletService

/-- Python truthiness of an optional float: `None` and `0.0` are falsy.
Used where the source writes `if not estimated_price:` and
`if lat and lng:`. -/
def truthyQ : Option ℚ → Bool
  | none => false
  | some x => x != 0

/-- The external Google-Maps collaborator (app/services/maps_service.py),
abstracted at its interface: a resolved distance in km (or `none` when the
distance matrix lookup fails) and a reverse-geocoded address. -/
structure MapsService where
  distance_km : ℚ → ℚ → ℚ → ℚ → Option ℚ
  reverse_geocode : ℚ → ℚ → Option String

/-- Python `round(x, 2)`.  (All amounts in the claims round exactly, so the
half-even versus half-up tie rule is immaterial here.) -/
def round2 (q : ℚ) : ℚ := (round (q * 100) : ℤ) / 100

/-- `MapsService.calculate_price` (app/services/maps_service.py):
`base_price + distance_km * price_per_km`, rounded to 2 decimals, or `none`
when the distance cannot be resolved.  The parameter defaults in the source
are `base_price = 10000` and `price_per_km = 2000`, even though the
function's own docstring documents taxi pricing as base 5000 / per-km 5000. -/
def MapsService.calculate_price (m : MapsService)
    (origin_lat origin_lng dest_lat dest_lng : ℚ)
    (base_price : ℚ := 10000) (price_per_km : ℚ := 2000) : Option ℚ :=
  match m.distance_km origin_lat origin_lng dest_lat dest_lng with
  | some d => some (round2 (base_price + d * price_per_km))
  | none => none

/-- `LocationData` schema (app/schemas.py). -/
structure LocationData where
  latitude : ℚ
  longitude : ℚ
  address : Option String
deriving DecidableEq, Repr

/-- `TaxiOrderCreate` schema (app/schemas.py). -/
structure TaxiOrderCreate where
  pickup : LocationData
  dropoff : LocationData
deriving DecidableEq, Repr

/-- `DeliveryOrderCreate` schema (app/schemas.py). -/
structure DeliveryOrderCreate where
  pickup : LocationData
  dropoff : LocationData
  recipient_name : String
  recipient_phone : String
  item_description : String
  item_price : Option ℚ
deriving DecidableEq, Repr

/-- `OrderAccept` schema (app/schemas.py). -/
structure OrderAccept where
  order_id : Nat
  driver_id : Nat
deriving DecidableEq, Repr

/-- `OrderUpdateStatus` schema (app/schemas.py): any `OrderStatus` value is
accepted; no transition-legality restriction exists in the schema. -/
structure OrderUpdateStatus where
  order_id : Nat
  status : OrderStatus
  notes : Option String
deriving DecidableEq, Repr

/-- `OrderCancel` schema (app/schemas.py). -/
structure OrderCancel where
  order_id : Nat
  reason : String
deriving DecidableEq, Repr

/-- `WalletTopUp` schema (app/schemas.py): plain `driver_id: int`,
`amount: float`, `admin_id: int` — no `Field(gt=0)` or any other constraint
on `amount`. -/
structure WalletTopUp where
  driver_id : Nat
  amount : ℚ
  admin_id : Nat
deriving DecidableEq, Repr

/-- Pydantic validation of `WalletTopUp`: every well-typed payload is
accepted, in particular any non-positive `amount`. -/
def WalletTopUp.valid (_ : WalletTopUp) : Bool := true

/-- The error outcomes raised by the embedded handlers
(HTTPException details in the source, spec §7 taxonomy). -/
inductive HErr where
  | notFound
  | notAuthorized
  | orderNotAvailable
  | insufficientBalance
  | pricingUnavailable
deriving DecidableEq, Repr

/-- `create_taxi_order` (backend/app/routers/orders_router.py).  Returns the
response (or the raised error) together with the final committed store:
`get_db` commits on normal return and rolls back on an exception. -/
def create_taxi_order (m : MapsService) (db : DB) (customer_id : Nat)
    (order_data : TaxiOrderCreate) : Except HErr Order × DB :=
  let s := Session.open db
  let estimated_price := m.calculate_price order_data.pickup.latitude
    order_data.pickup.longitude order_data.dropoff.latitude
    order_data.dropoff.longitude
  -- `if not estimated_price:` — Python truthiness (None or 0.0 both fail)
  if !truthyQ estimated_price then
    (.error .pricingUnavailable, s.committed)
  else
    let p := estimated_price.getD 0
    let pickup_address := match order_data.pickup.address with
      | some a => some a
      | none => m.reverse_geocode order_data.pickup.latitude order_data.pickup.longitude
    let dropoff_address := match order_data.dropoff.address with
      | some a => some a
      | none => m.reverse_geocode order_data.dropoff.latitude order_data.dropoff.longitude
    let (oid, dbp) := s.pending.fresh
    let new_order : Order :=
      { id := oid, type := .taxi, status := .pending,
        customer_id := customer_id, driver_id := none,
        pickup_lat := order_data.pickup.latitude,
        pickup_lng := order_data.pickup.longitude,
        pickup_address := pickup_address,
        dropoff_lat := order_data.dropoff.latitude,
        dropoff_lng := order_data.dropoff.longitude,
        dropoff_address := dropoff_address,
        estimated_price := some p, final_price := none,
        commission := DEFAULT_COMMISSION,
        recipient_name := none, recipient_phone := none,
        item_description := none, item_price := none,
        recipient_location_token := none,
        created_at := oid, accepted_at := none, picked_up_at := none,
        delivered_at := none, completed_at := none, cancelled_at := none,
        cancellation_reason := none, cancelled_by := none }
    let s := Session.commit { s with pending := { dbp with orders := dbp.orders ++ [new_order] } }
    let (lid, dbp) := s.pending.fresh
    let status_log : OrderStatusLog :=
      { id := lid, order_id := new_order.id, old_status := none,
        new_status := .pending, changed_by := customer_id,
        timestamp := lid, notes := none }
    let s := Session.commit { s with pending := { dbp with logs := dbp.logs ++ [status_log] } }
    (.ok new_order, s.committed)

/-- `create_delivery_order` (backend/app/routers/orders_router.py).  The
recipient-location token is passed in as the value produced by
`secrets.token_urlsafe(32)` (an external randomness source).  The trailing
SMS send is best-effort and does not touch the store. -/
def create_delivery_order (m : MapsService) (db : DB) (customer_id : Nat)
    (order_data : DeliveryOrderCreate) (location_token : String) :
    Except HErr Order × DB :=
  let s := Session.open db
  let estimated_price := m.calculate_price order_data.pickup.latitude
    order_data.pickup.longitude order_data.dropoff.latitude
    order_data.dropoff.longitude
  if !truthyQ estimated_price then
    (.error .pricingUnavailable, s.committed)
  else
    let p := estimated_price.getD 0
    let pickup_address := match order_data.pickup.address with
      | some a => some a
      | none => m.reverse_geocode order_data.pickup.latitude order_data.pickup.longitude
    let dropoff_address := match order_data.dropoff.address with
      | some a => some a
      | none => m.reverse_geocode order_data.dropoff.latitude order_data.dropoff.longitude
    let (oid, dbp) := s.pending.fresh
    let new_order : Order :=
      { id := oid, type := .delivery, status := .pending,
        customer_id := customer_id, driver_id := none,
        pickup_lat := order_data.pickup.latitude,
        pickup_lng := order_data.pickup.longitude,
        pickup_address := pickup_address,
        dropoff_lat := order_data.dropoff.latitude,
        dropoff_lng := order_data.dropoff.longitude,
        dropoff_address := dropoff_address,
        estimated_price := some p, final_price := none,
        commission := DEFAULT_COMMISSION,
        recipient_name := some order_data.recipient_name,
        recipient_phone := some order_data.recipient_phone,
        item_description := some order_data.item_description,
        item_price := order_data.item_price,
        recipient_location_token := some location_token,
        created_at := oid, accepted_at := none, picked_up_at := none,
        delivered_at := none, completed_at := none, cancelled_at := none,
        cancellation_reason := none, cancelled_by := none }
    let s := Session.commit { s with pending := { dbp with orders := dbp.orders ++ [new_order] } }
    let (lid, dbp) := s.pending.fresh
    let status_log : OrderStatusLog :=
      { id := lid, order_id := new_order.id, old_status := none,
        new_status := .pending, changed_by := customer_id,
        timestamp := lid, notes := none }
    let s := Session.commit { s with pending := { dbp with logs := dbp.logs ++ [status_log] } }
    (.ok new_order, s.committed)

/-- `get_pending_orders` (backend/app/routers/orders_router.py): 403 when
the eligibility gate fails, otherwise all PENDING orders ordered by
`created_at` descending. -/
def get_pending_orders (db : DB) (driver_id : Nat) :
    Except HErr (List Order) × DB :=
  let s := Session.open db
  let (can_accept, s) := WalletService.can_accept_orders s driver_id
  if !can_accept then
    (.error .insufficientBalance, s.committed)
  else
    let rows := (s.pending.orders.filter (fun o => o.status == .pending)).mergeSort
      (fun a b => b.created_at ≤ a.created_at)
    (.ok rows, s.committed)

/-- `accept_order` (backend/app/routers/orders_router.py). -/
def accept_order (db : DB) (driver_id : Nat) (accept_data : OrderAccept) :
    Except HErr Order × DB :=
  let s := Session.open db
  let (can_accept, s) := WalletService.can_accept_orders s driver_id
  if !can_accept then
    (.error .insufficientBalance, s.committed)
  else
    match s.pending.orders.find? (fun o => o.id == accept_data.order_id) with
    | none => (.error .notFound, s.committed)
    | some order =>
        if order.status != .pending then
          (.error .orderNotAvailable, s.committed)
        else
          let old_status := order.status
          let (ts, dbp) := s.pending.fresh
          let order' := { order with driver_id := some driver_id,
                                     status := OrderStatus.accepted,
                                     accepted_at := some ts }
          let s := { s with pending := dbp.updateOrder order' }
          let (lid, dbp) := s.pending.fresh
          let status_log : OrderStatusLog :=
            { id := lid, order_id := order.id, old_status := some old_status,
              new_status := .accepted, changed_by := driver_id,
              timestamp := lid, notes := none }
          let s := Session.commit { s with pending := { dbp with logs := dbp.logs ++ [status_log] } }
          (.ok order', s.committed)

/-- `update_order_status` (backend/app/routers/orders_router.py): looks the
order up by id *and* assigned driver, assigns the requested status and the
matching timestamp with no transition-legality check, runs the commission
deduction when the new status is COMPLETED (raising 400 when the ledger
declines), then appends the audit entry and commits. -/
def update_order_status (db : DB) (driver_id : Nat)
    (update_data : OrderUpdateStatus) : Except HErr Order × DB :=
  let s := Session.open db
  match s.pending.orders.find?
      (fun o => o.id == update_data.order_id && o.driver_id == some driver_id) with
  | none => (.error .notFound, s.committed)
  | some order =>
      let old_status := order.status
      let (ts, dbp) := s.pending.fresh
      let order' := { order with
        status := update_data.status,
        picked_up_at := if update_data.status == .picked_up then some ts else order.picked_up_at,
        delivered_at := if update_data.status == .delivered then some ts else order.delivered_at,
        completed_at := if update_data.status == .completed then some ts else order.completed_at }
      let s := { s with pending := dbp.updateOrder order' }
      let finish : Session → Except HErr Order × DB := fun s =>
        let (lid, dbp) := s.pending.fresh
        let status_log : OrderStatusLog :=
          { id := lid, order_id := order.id, old_status := some old_status,
            new_status := update_data.status, changed_by := driver_id,
            timestamp := lid, notes := update_data.notes }
        let s := Session.commit { s with pending := { dbp with logs := dbp.logs ++ [status_log] } }
        (.ok order', s.committed)
      if update_data.status == .completed then
        let (tx, s) := WalletService.deduct_commission s driver_id order.id
          (some order.commission)
        match tx with
        | none => (.error .insufficientBalance, s.committed)
        | some _ => finish s
      else
        finish s

/-- `cancel_order` (backend/app/routers/orders_router.py): requires the
actor to be the order's customer or assigned driver, then cancels from
*any* status — no terminal-status check exists in the source. -/
def cancel_order (db : DB) (user_id : Nat) (cancel_data : OrderCancel) :
    Except HErr Order × DB :=
  let s := Session.open db
  match s.pending.orders.find? (fun o => o.id == cancel_data.order_id) with
  | none => (.error .notFound, s.committed)
  | some order =>
      -- `if current_user.id != order.customer_id and current_user.id != order.driver_id:`
      if user_id != order.customer_id && some user_id != order.driver_id then
        (.error .notAuthorized, s.committed)
      else
        let old_status := order.status
        let (ts, dbp) := s.pending.fresh
        let order' := { order with status := OrderStatus.cancelled,
                                   cancelled_at := some ts,
                                   cancelled_by := some user_id,
                                   cancellation_reason := some cancel_data.reason }
        let s := { s with pending := dbp.updateOrder order' }
        let (lid, dbp) := s.pending.fresh
        let status_log : OrderStatusLog :=
          { id := lid, order_id := order.id, old_status := some old_status,
            new_status := .cancelled, changed_by := user_id,
            timestamp := lid, notes := some cancel_data.reason }
        let s := Session.commit { s with pending := { dbp with logs := dbp.logs ++ [status_log] } }
        (.ok order', s.committed)

/-- `top_up_wallet` (app/routers/admin_router.py): after verifying the
target is a driver (modelled by the `driver_exists` flag from the user
table), it forwards to the wallet service with no check on the amount. -/
def top_up_wallet (db : DB) (admin_id : Nat) (top_up_data : WalletTopUp)
    (driver_exists : Bool) : Except HErr Transaction × DB :=
  let s := Session.open db
  if !driver_exists then
    (.error .notFound, s.committed)
  else
    let (t, s) := WalletService.top_up s top_up_data.driver_id
      top_up_data.amount admin_id
    (.ok t, s.committed)

/-- The audit entries of one order in insertion order (matching
`OrderStatusLog.order_id == order_id`). -/
def logsFor (db : DB) (order_id : Nat) : List OrderStatusLog :=
  db.logs.filter (fun l => l.order_id == order_id)

/-- `get_order_status_history` (app/routers/admin_router.py): the order's
audit entries ordered by timestamp ascending. -/
def get_order_status_history (db : DB) (order_id : Nat) : List OrderStatusLog :=
  (logsFor db order_id).mergeSort (fun a b => a.timestamp ≤ b.timestamp)

/-- The websocket hub's ephemeral per-driver location map
(app/routers/websocket_router.py, `ConnectionManager`), with the broadcast
side modelled by the produced admin-broadcast payload. -/
structure ConnectionManager where
  driver_locations : List (Nat × (ℚ × ℚ × Nat))
deriving DecidableEq, Repr

/-- `ConnectionManager.update_driver_location`: overwrite the driver's
ephemeral location record. -/
def ConnectionManager.update_driver_location (m : ConnectionManager)
    (driver_id : Nat) (lat lng : ℚ) (now : Nat) : ConnectionManager :=
  { m with driver_locations :=
      (m.driver_locations.filter (fun p => p.1 != driver_id)) ++ [(driver_id, (lat, lng, now))] }

/-- Payload of the `driver_location` admin broadcast. -/
structure DriverLocationBroadcast where
  driver_id : Nat
  latitude : ℚ
  longitude : ℚ
deriving DecidableEq, Repr

/-- The `driver_location` branch of `websocket_endpoint`
(app/routers/websocket_router.py): `lat = data.get("latitude")`,
`lng = data.get("longitude")`, then `if lat and lng:` — Python truthiness,
so a missing coordinate *or* a coordinate equal to 0 skips both the map
update and the admin broadcast. -/
def handle_driver_location (m : ConnectionManager) (user_id : Nat)
    (lat lng : Option ℚ) (now : Nat) :
    ConnectionManager × Option DriverLocationBroadcast :=
  if truthyQ lat && truthyQ lng then
    let la := lat.getD 0
    let ln := lng.getD 0
    (m.update_driver_location user_id la ln now,
     some { driver_id := user_id, latitude := la, longitude := ln })
  else
    (m, none)

/-- Balance as observed through the wallet table (0 when no wallet row
exists yet, matching get-or-create semantics). -/
def walletBalance (db : DB) (user_id : Nat) : ℚ :=
  match db.wallets.find? (fun w => w.user_id == user_id) with
  | some w => w.balance
  | none => 0

/-- Modelled from the spec (§4.1): the legal state-machine steps
`PENDING → ACCEPTED → PICKED_UP → IN_TRANSIT → DELIVERED → COMPLETED`,
with CANCELLED reachable only from non-terminal states.  This is the
spec's transition table, used to test the audit sequences the code
actually produces; the source has no such table. -/
def specLegalNext : OrderStatus → OrderStatus → Bool
  | .pending, .accepted => true
  | .accepted, .picked_up => true
  | .picked_up, .in_transit => true
  | .in_transit, .delivered => true
  | .delivered, .completed => true
  | .completed, _ => false
  | .cancelled, _ => false
  | s, .cancelled => !(s == .completed || s == .cancelled)
  | _, _ => false

/-- Modelled from the spec: a `new_status` sequence is a valid path when it
starts at PENDING and each consecutive step is legal. -/
def specValidPathAux : OrderStatus → List OrderStatus → Bool
  | _, [] => true
  | s, t :: rest => specLegalNext s t && specValidPathAux t rest

/-- Modelled from the spec: validity of a whole audit `new_status` path. -/
def specValidPath : List OrderStatus → Bool
  | [] => true
  | s :: rest => s == OrderStatus.pending && specValidPathAux s rest

/-- Well-formedness of one order's audit trail: the first entry is the
creation entry (`old=null, new=PENDING`), each later entry's `old_status`
is the previous entry's `new_status`, and the last entry's `new_status` is
the order's current status. -/
def GoodLog (o : Order) (L : List OrderStatusLog) : Prop :=
  (∃ l0 rest, L = l0 :: rest ∧ l0.old_status = none ∧ l0.new_status = .pending) ∧
  List.Chain' (fun a b => b.old_status = some a.new_status) L ∧
  (∃ ll, L.getLast? = some ll ∧ ll.new_status = o.status)

/-- The inductive invariant maintained by every entry point of the core:
key freshness/uniqueness, the driver/status relationship, the
commission-deduction bookkeeping and the audit-trail shape. -/
structure Inv (db : DB) : Prop where
  orders_id_lt : ∀ o ∈ db.orders, o.id < db.clock
  orders_nodup : (db.orders.map Order.id).Nodup
  wallets_id_lt : ∀ w ∈ db.wallets, w.id < db.clock
  wallets_nodup : (db.wallets.map Wallet.id).Nodup
  logs_ts_lt : ∀ l ∈ db.logs, l.timestamp < db.clock
  log_order_lt : ∀ l ∈ db.logs, l.order_id < db.clock
  logs_sorted : db.logs.Pairwise (fun a b => a.timestamp < b.timestamp)
  txn_order_lt : ∀ t ∈ db.txns, ∀ oid, t.order_id = some oid → oid < db.clock
  driver_none : ∀ o ∈ db.orders, o.driver_id = none →
    o.status = OrderStatus.pending ∨ o.status = OrderStatus.cancelled
  driver_wallet : ∀ o ∈ db.orders, ∀ d, o.driver_id = some d →
    ∃ w ∈ db.wallets, w.user_id = d
  completed_txn : ∀ o ∈ db.orders, o.status = OrderStatus.completed →
    ∃ t ∈ db.txns, t.type = TransactionType.deduction ∧ t.order_id = some o.id
  txn_ref : ∀ o ∈ db.orders, ∀ t ∈ db.txns, t.order_id = some o.id →
    t.type = TransactionType.deduction ∧ t.amount = o.commission
  logs_chain : ∀ o ∈ db.orders, GoodLog o (logsFor db o.id)

/-- The states reachable from the empty store through the embedded entry
points (order creation, pending listing, accept, status advance, cancel,
admin wallet top-up), with arbitrary arguments and arbitrary behaviour of
the external maps collaborator. -/
inductive Reachable : DB → Prop where
  | empty : Reachable DB.empty
  | create_taxi (m : MapsService) (cust : Nat) (req : TaxiOrderCreate)
      {db db' : DB} : Reachable db →
      (create_taxi_order m db cust req).2 = db' → Reachable db'
  | create_delivery (m : MapsService) (cust : Nat) (req : DeliveryOrderCreate)
      (tok : String) {db db' : DB} : Reachable db →
      (create_delivery_order m db cust req tok).2 = db' → Reachable db'
  | accept (d : Nat) (req : OrderAccept) {db db' : DB} : Reachable db →
      (accept_order db d req).2 = db' → Reachable db'
  | advance (d : Nat) (req : OrderUpdateStatus) {db db' : DB} : Reachable db →
      (update_order_status db d req).2 = db' → Reachable db'
  | cancel (u : Nat) (req : OrderCancel) {db db' : DB} : Reachable db →
      (cancel_order db u req).2 = db' → Reachable db'
  | list_pending (d : Nat) {db db' : DB} : Reachable db →
      (get_pending_orders db d).2 = db' → Reachable db'
  | wallet_topup (a : Nat) (req : WalletTopUp) (ex : Bool) {db db' : DB} :
      Reachable db → (top_up_wallet db a req ex).2 = db' → Reachable db'

/-! Concrete executions used to exhibit behaviour on explicit inputs. -/

/-- A maps collaborator that resolves every distance lookup to 10 km. -/
def maps10 : MapsService :=
  { distance_km := fun _ _ _ _ => some 10, reverse_geocode := fun _ _ => none }

/-- A maps collaborator whose distance lookup always fails. -/
def mapsDown : MapsService :=
  { distance_km := fun _ _ _ _ => none, reverse_geocode := fun _ _ => none }

/-- The taxi request of the pricing scenario: pickup (33.5, 36.3),
dropoff (33.6, 36.4). -/
def reqTaxi : TaxiOrderCreate :=
  { pickup := { latitude := 33.5, longitude := 36.3, address := none },
    dropoff := { latitude := 33.6, longitude := 36.4, address := none } }

/-- Trace step 1: admin 9 tops driver 2 up by 10000. -/
def dbA : DB := (top_up_wallet DB.empty 9 ⟨2, 10000, 9⟩ true).2

/-- Trace step 2: customer 1 creates a taxi order (order id 2). -/
def dbB : DB := (create_taxi_order maps10 dbA 1 reqTaxi).2

/-- Trace step 3: driver 2 accepts order 2. -/
def dbC : DB := (accept_order dbB 2 ⟨2, 2⟩).2

/-- Trace step 4: driver 2 jumps order 2 from ACCEPTED straight to
COMPLETED (the code performs no transition-legality check). -/
def dbD : DB := (update_order_status dbC 2 ⟨2, .completed, none⟩).2

/-- Trace step 5: driver 2 "completes" order 2 a second time, deducting a
second commission. -/
def dbE : DB := (update_order_status dbD 2 ⟨2, .completed, none⟩).2

/-- A second trace: customer 1 creates a taxi order (order id 0) on a
fresh store... -/
def dbP : DB := (create_taxi_order maps10 DB.empty 1 reqTaxi).2

/-- ...and cancels it while it is still PENDING, leaving a CANCELLED order
whose `driver_id` is null. -/
def dbQ : DB := (cancel_order dbP 1 ⟨0, "changed my mind"⟩).2

/-- Did the handler return 2xx? -/
def isOk {α : Type} : Except HErr α → Bool
  | .ok _ => true
  | .error _ => false

/-- The estimated price stored by a successful order-creation response. -/
def priceOf : Except HErr Order → Option (Option ℚ)
  | .ok o => some o.estimated_price
  | .error _ => none

/-- A standalone DELIVERED order assigned to driver 2 (commission 5000). -/
def oLow : Order :=
  { id := 7, type := .taxi, status := .delivered, customer_id := 1,
    driver_id := some 2, pickup_lat := 33.5, pickup_lng := 36.3,
    pickup_address := none, dropoff_lat := 33.6, dropoff_lng := 36.4,
    dropoff_address := none, estimated_price := some 30000,
    final_price := none, commission := 5000, recipient_name := none,
    recipient_phone := none, item_description := none, item_price := none,
    recipient_location_token := none, created_at := 3, accepted_at := some 4,
    picked_up_at := some 5, delivered_at := some 6, completed_at := none,
    cancelled_at := none, cancellation_reason := none, cancelled_by := none }

/-- A store holding `oLow` and driver 2's wallet with balance 100,
below the order's commission of 5000. -/
def dbLow : DB := ⟨[oLow], [], [⟨0, 2, 100⟩], [], 20⟩

end DOT

namespace DOT

/-! ### Reachability of the concrete traces -/

theorem reachable_dbA : Reachable dbA :=
  Reachable.wallet_topup 9 ⟨2, 10000, 9⟩ true Reachable.empty rfl

theorem reachable_dbB : Reachable dbB :=
  Reachable.create_taxi maps10 1 reqTaxi reachable_dbA rfl

theorem reachable_dbC : Reachable dbC :=
  Reachable.accept 2 ⟨2, 2⟩ reachable_dbB rfl

theorem reachable_dbD : Reachable dbD :=
  Reachable.advance 2 ⟨2, .completed, none⟩ reachable_dbC rfl

theorem reachable_dbE : Reachable dbE :=
  Reachable.advance 2 ⟨2, .completed, none⟩ reachable_dbD rfl

theorem reachable_dbP : Reachable dbP :=
  Reachable.create_taxi maps10 1 reqTaxi Reachable.empty rfl

theorem reachable_dbQ : Reachable dbQ :=
  Reachable.cancel 1 ⟨0, "changed my mind"⟩ reachable_dbP rfl

/-! ### Counterexamples observed on concrete reachable stores -/

/-- C2 counterexample, both directions.  Cancelling a still-PENDING order
(allowed to the customer) yields a reachable store with a CANCELLED order
whose `driver_id` is null; and a driver resetting their accepted order's
status to PENDING (no transition check exists) yields a reachable store
with a PENDING order whose `driver_id` is non-null.  So "driver_id is
null iff status is PENDING" is false in both directions. -/
theorem driver_null_iff_pending_cex :
    (Reachable dbQ ∧
      (dbQ.orders.find? (fun o => o.id == 0)).map
          (fun o => (o.driver_id, o.status)) =
        some (none, OrderStatus.cancelled)) ∧
    (Reachable (update_order_status dbC 2 ⟨2, OrderStatus.pending, none⟩).2 ∧
      ((update_order_status dbC 2 ⟨2, OrderStatus.pending, none⟩).2.orders.find?
          (fun o => o.id == 2)).map (fun o => (o.driver_id, o.status)) =
        some (some 2, OrderStatus.pending)) :=
  ⟨⟨reachable_dbQ, by with_unfolding_all rfl⟩,
   ⟨Reachable.advance 2 ⟨2, OrderStatus.pending, none⟩ reachable_dbC rfl,
    by with_unfolding_all rfl⟩⟩

/-- C3 counterexample: `update_order_status` has no transition guard, so a
driver can complete the same order twice; the reachable store `dbE` holds a
COMPLETED order with two DEDUCTION transactions referencing it. -/
theorem completed_single_deduction_cex :
    Reachable dbE ∧
    (dbE.orders.find? (fun o => o.id == 2)).map Order.status =
      some OrderStatus.completed ∧
    (dbE.txns.filter (fun t =>
        t.order_id == some 2 && t.type == TransactionType.deduction)).length = 2 :=
  ⟨reachable_dbE, by with_unfolding_all rfl, by with_unfolding_all rfl⟩

/-- C4 counterexample: the audit trail of order 2 in the reachable store
`dbD` reads back as PENDING, ACCEPTED, COMPLETED — the jump
ACCEPTED→COMPLETED is not a legal step of the spec's state machine. -/
theorem audit_valid_path_cex :
    Reachable dbD ∧
    specValidPath ((get_order_status_history dbD 2).map
      (fun l => l.new_status)) = false := by
  refine ⟨reachable_dbD, ?_⟩
  have hl : logsFor dbD 2 =
      [⟨3, 2, none, .pending, 1, 3, none⟩,
       ⟨5, 2, some .pending, .accepted, 2, 5, none⟩,
       ⟨8, 2, some .accepted, .completed, 2, 8, none⟩] := by
    with_unfolding_all rfl
  rw [get_order_status_history, hl, List.mergeSort_of_sorted (by decide)]
  decide

/-- C5 counterexample: `cancel_order` never checks the current status, so
the customer can cancel the already-COMPLETED order 2 of the reachable
store `dbD`; "Cancel succeeds only from a non-terminal status" is false. -/
theorem cancel_terminal_cex :
    Reachable dbD ∧
    (dbD.orders.find? (fun o => o.id == 2)).map Order.status =
      some OrderStatus.completed ∧
    isOk (cancel_order dbD 1 ⟨2, "late cancel"⟩).1 = true :=
  ⟨reachable_dbD, by with_unfolding_all rfl, by with_unfolding_all rfl⟩

/-- C7 counterexample: nothing validates the top-up amount — the schema is
a plain float and the service adds it blindly — so a top-up of -100 is
accepted and lowers the balance from 10000 to 9900. -/
theorem topup_nonpositive_cex :
    WalletTopUp.valid ⟨2, -100, 9⟩ = true ∧
    isOk (top_up_wallet dbA 9 ⟨2, -100, 9⟩ true).1 = true ∧
    walletBalance (top_up_wallet dbA 9 ⟨2, -100, 9⟩ true).2 2 = 9900 :=
  ⟨rfl, by with_unfolding_all rfl, by with_unfolding_all rfl⟩

/-- C9: the pricing formula evaluated at the docstring's taxi parameters
(base 5000, per-km 5000) over 10 km gives 55000, as the spec says; but
`create_taxi_order` calls `calculate_price` with no pricing arguments, so
the parameter defaults (base 10000, per-km 2000) apply and the stored
estimated price is 30000 — the code contradicts its own docstring.  When
the distance cannot be resolved, creation fails and nothing is persisted. -/
theorem taxi_price_divergence :
    maps10.calculate_price 33.5 36.3 33.6 36.4 5000 5000 = some 55000 ∧
    priceOf (create_taxi_order maps10 DB.empty 1 reqTaxi).1 = some (some 30000) ∧
    create_taxi_order mapsDown DB.empty 1 reqTaxi =
      (.error .pricingUnavailable, DB.empty) :=
  ⟨by with_unfolding_all rfl, by with_unfolding_all rfl, by with_unfolding_all rfl⟩

/-- C10: a `driver_location` message whose latitude or longitude is absent
or equal to 0 is silently dropped — the ephemeral location map is left
unchanged and no admin broadcast is produced — because the handler tests
the coordinates with Python truthiness (`if lat and lng:`). -/
theorem driver_location_zero_dropped (m : ConnectionManager) (uid : Nat)
    (lat lng : Option ℚ) (now : Nat)
    (h : lat = none ∨ lat = some 0 ∨ lng = none ∨ lng = some 0) :
    handle_driver_location m uid lat lng now = (m, none) := by
  unfold handle_driver_location
  rcases h with h | h | h | h <;> subst h <;> simp [truthyQ]

/-- Witness for C10: a driver sitting exactly on the equator (latitude 0)
is never recorded. -/
theorem driver_location_zero_dropped_witness :
    handle_driver_location ⟨[]⟩ 4 (some 0) (some 36.3) 11 = (⟨[]⟩, none) :=
  driver_location_zero_dropped ⟨[]⟩ 4 (some 0) (some 36.3) 11 (Or.inr (Or.inl rfl))

/-! ### Wallet-service lemmas -/

/-- Replacing the row that shares the found wallet's id (an ORM balance
mutation) moves `find?`-by-user to the replacement row, provided wallet ids
are distinct. -/
theorem find?_user_map_update (l : List Wallet) (w w' : Wallet) (u : Nat)
    (hnd : (l.map Wallet.id).Nodup)
    (hfind : l.find? (fun p => p.user_id == u) = some w)
    (hid : w'.id = w.id) (huser : w'.user_id = w.user_id) :
    (l.map (fun p => if p.id == w'.id then w' else p)).find?
      (fun p => p.user_id == u) = some w' := by
  induction l with
  | nil => simp at hfind
  | cons a tl ih =>
      rw [List.map_cons, List.nodup_cons] at hnd
      rw [List.map_cons]
      cases hpa : (a.user_id == u) with
      | true =>
          simp only [List.find?, hpa] at hfind
          have ha : a = w := Option.some.inj hfind
          have hcond : (a.id == w'.id) = true := by simp [hid, ha]
          rw [if_pos hcond]
          simp only [List.find?, huser, ← ha, hpa]
      | false =>
          simp only [List.find?, hpa] at hfind
          have hw_mem : w ∈ tl := List.mem_of_find?_eq_some hfind
          have hane : (a.id == w'.id) = false := by
            rw [hid]
            by_contra hc
            rw [Bool.not_eq_false, beq_iff_eq] at hc
            exact hnd.1 (hc ▸ List.mem_map_of_mem Wallet.id hw_mem)
          rw [if_neg (by simp [hane])]
          simp only [List.find?, hpa]
          exact ih hnd.2 hfind

/-- `get_or_create_wallet` never touches the orders of the open session. -/
theorem get_or_create_pending_orders (s : Session) (u : Nat) :
    ((WalletService.get_or_create_wallet s u).2).pending.orders =
      s.pending.orders := by
  unfold WalletService.get_or_create_wallet
  cases h : s.pending.wallets.find? (fun w => w.user_id == u) <;>
    simp [h, Session.commit, DB.fresh]

/-! ### Claim theorems: direct behaviour of single operations -/

/-- C1: when the assigned driver's wallet balance is below the order's
commission, advancing to COMPLETED raises `InsufficientBalance` and the
whole transition is rolled back: the returned committed store is exactly
the original one — status, `completed_at` and the audit log unchanged. -/
theorem completed_rejected_on_insufficient_balance
    (db : DB) (d oid : Nat) (notes : Option String) (o : Order) (w : Wallet)
    (ho : db.orders.find? (fun x => x.id == oid && x.driver_id == some d) = some o)
    (hw : db.wallets.find? (fun p => p.user_id == d) = some w)
    (hb : w.balance < o.commission) :
    update_order_status db d ⟨oid, .completed, notes⟩ =
      (.error .insufficientBalance, db) := by
  simp only [update_order_status, Session.open, DB.fresh, Session.modifyPending,
    DB.updateOrder, WalletService.deduct_commission, WalletService.get_or_create_wallet,
    Option.getD, ho, hw, beq_self_eq_true, if_pos hb, reduceIte]

/-- Witness for C1: on `dbLow` (driver 2 assigned to the DELIVERED order 7,
wallet balance 100 < commission 5000) the COMPLETED transition is rejected
and the store is unchanged. -/
theorem completed_rejected_on_insufficient_balance_witness :
    update_order_status dbLow 2 ⟨7, .completed, none⟩ =
      (.error .insufficientBalance, dbLow) :=
  completed_rejected_on_insufficient_balance dbLow 2 7 none oLow ⟨0, 2, 100⟩
    (by with_unfolding_all rfl) (by with_unfolding_all rfl) (by decide)

/-- C6: `deduct_commission` declines with `none` (no exception) exactly
when the balance is below the amount, leaving everything unchanged; with a
sufficient balance it decrements the balance by exactly the amount and
appends exactly one DEDUCTION transaction referencing the order. -/
theorem deduct_commission_gate
    (db : DB) (d oid : Nat) (amt : ℚ) (w : Wallet)
    (hnd : (db.wallets.map Wallet.id).Nodup)
    (hw : db.wallets.find? (fun p => p.user_id == d) = some w)
    (_hpos : 0 < amt) :
    (w.balance < amt →
      WalletService.deduct_commission (Session.open db) d oid (some amt) =
        (none, Session.open db)) ∧
    (amt ≤ w.balance →
      ∃ t s, WalletService.deduct_commission (Session.open db) d oid (some amt) =
          (some t, s) ∧
        s.committed.txns = db.txns ++ [t] ∧
        t.type = TransactionType.deduction ∧ t.order_id = some oid ∧
        t.amount = amt ∧ walletBalance s.committed d = w.balance - amt ∧
        s.committed.orders = db.orders ∧ s.committed.logs = db.logs) := by
  constructor
  · intro h
    simp only [WalletService.deduct_commission, WalletService.get_or_create_wallet,
      Session.open, Session.modifyPending, DB.updateWallet, DB.fresh, Option.getD,
      hw, if_pos h]
  · intro h
    have hnl : ¬ w.balance < amt := not_lt.mpr h
    simp only [WalletService.deduct_commission, WalletService.get_or_create_wallet,
      Session.open, Session.modifyPending, Session.commit, DB.updateWallet, DB.fresh,
      Option.getD, hw, if_neg hnl]
    refine ⟨_, _, rfl, rfl, rfl, rfl, rfl, ?_, rfl, rfl⟩
    unfold walletBalance
    rw [find?_user_map_update db.wallets w { w with balance := w.balance - amt }
      d hnd hw rfl rfl]

/-- Witness for C6: on `dbLow` (driver 2, balance 100) a deduction of 5000
is declined with the store untouched, and a deduction of 40 succeeds,
leaving balance 60 and one appended DEDUCTION transaction. -/
theorem deduct_commission_gate_witness :
    (WalletService.deduct_commission (Session.open dbLow) 2 7 (some 5000) =
      (none, Session.open dbLow)) ∧
    (∃ t s, WalletService.deduct_commission (Session.open dbLow) 2 7 (some 40) =
        (some t, s) ∧
      s.committed.txns = dbLow.txns ++ [t] ∧
      t.type = TransactionType.deduction ∧ t.order_id = some 7 ∧
      t.amount = 40 ∧ walletBalance s.committed 2 = (100 : ℚ) - 40 ∧
      s.committed.orders = dbLow.orders ∧ s.committed.logs = dbLow.logs) :=
  ⟨(deduct_commission_gate dbLow 2 7 5000 ⟨0, 2, 100⟩ (by decide)
      (by with_unfolding_all rfl) (by decide)).1 (by decide),
   (deduct_commission_gate dbLow 2 7 40 ⟨0, 2, 100⟩ (by decide)
      (by with_unfolding_all rfl) (by decide)).2 (by decide)⟩

/-- C7 (amended): no layer checks the top-up amount — the schema accepts
any float and the service adds it blindly — so for *every* amount
(positive or not) the top-up succeeds, the balance moves by exactly that
amount, and one TOP_UP transaction referencing the acting admin is
appended. -/
theorem top_up_adds_any_amount
    (db : DB) (d : Nat) (amt : ℚ) (a : Nat) (w : Wallet)
    (hnd : (db.wallets.map Wallet.id).Nodup)
    (hw : db.wallets.find? (fun p => p.user_id == d) = some w) :
    WalletTopUp.valid ⟨d, amt, a⟩ = true ∧
    ∃ t, (top_up_wallet db a ⟨d, amt, a⟩ true).1 = .ok t ∧
      (top_up_wallet db a ⟨d, amt, a⟩ true).2.txns = db.txns ++ [t] ∧
      t.type = TransactionType.top_up ∧ t.amount = amt ∧
      t.admin_id = some a ∧
      t.description = "Wallet top-up by admin #" ++ toString a ∧
      walletBalance (top_up_wallet db a ⟨d, amt, a⟩ true).2 d = w.balance + amt ∧
      (top_up_wallet db a ⟨d, amt, a⟩ true).2.orders = db.orders ∧
      (top_up_wallet db a ⟨d, amt, a⟩ true).2.logs = db.logs := by
  refine ⟨rfl, ?_⟩
  simp only [top_up_wallet, WalletService.top_up, WalletService.get_or_create_wallet,
    Session.open, Session.modifyPending, Session.commit, DB.updateWallet, DB.fresh,
    hw, Bool.not_true, Bool.false_eq_true, reduceIte]
  refine ⟨_, rfl, rfl, rfl, rfl, rfl, rfl, ?_, trivial, trivial⟩
  unfold walletBalance
  rw [find?_user_map_update db.wallets w { w with balance := w.balance + amt }
    d hnd hw rfl rfl]

/-- Witness for C7: on `dbLow` a top-up of -250 is accepted and the balance
moves from 100 to -150. -/
theorem top_up_adds_any_amount_witness :
    WalletTopUp.valid ⟨2, -250, 9⟩ = true ∧
    ∃ t, (top_up_wallet dbLow 9 ⟨2, -250, 9⟩ true).1 = .ok t ∧
      (top_up_wallet dbLow 9 ⟨2, -250, 9⟩ true).2.txns = dbLow.txns ++ [t] ∧
      t.type = TransactionType.top_up ∧ t.amount = -250 ∧
      t.admin_id = some 9 ∧
      t.description = "Wallet top-up by admin #" ++ toString 9 ∧
      walletBalance (top_up_wallet dbLow 9 ⟨2, -250, 9⟩ true).2 2 = (100 : ℚ) + -250 ∧
      (top_up_wallet dbLow 9 ⟨2, -250, 9⟩ true).2.orders = dbLow.orders ∧
      (top_up_wallet dbLow 9 ⟨2, -250, 9⟩ true).2.logs = dbLow.logs :=
  top_up_adds_any_amount dbLow 2 (-250) 9 ⟨0, 2, 100⟩ (by decide)
    (by with_unfolding_all rfl)

/-- `can_accept_orders` never touches the orders of the open session. -/
theorem can_accept_pending_orders (s : Session) (u : Nat) :
    ((WalletService.can_accept_orders s u).2).pending.orders =
      s.pending.orders := by
  unfold WalletService.can_accept_orders
  rcases hgoc : WalletService.get_or_create_wallet s u with ⟨w, s'⟩
  have h := get_or_create_pending_orders s u
  rw [hgoc] at h
  simpa using h

/-- C8: `can_accept_orders` is true iff the wallet balance (0 for a
lazily-created wallet) is at least the default commission, and the
pending-orders listing fails with `InsufficientBalance` exactly when that
gate is false; otherwise it returns the PENDING orders, newest first by
creation time. -/
theorem can_accept_orders_gate (db : DB) (d : Nat) :
    ((WalletService.can_accept_orders (Session.open db) d).1 = true ↔
      DEFAULT_COMMISSION ≤ walletBalance db d) ∧
    ((WalletService.can_accept_orders (Session.open db) d).1 = false →
      (get_pending_orders db d).1 = .error .insufficientBalance) ∧
    ((WalletService.can_accept_orders (Session.open db) d).1 = true →
      ∃ rows, (get_pending_orders db d).1 = .ok rows ∧
        rows.Perm (db.orders.filter (fun o => o.status == OrderStatus.pending)) ∧
        rows.Pairwise (fun a b => b.created_at ≤ a.created_at)) := by
  have horders := can_accept_pending_orders (Session.open db) d
  refine ⟨?_, ?_, ?_⟩
  · unfold WalletService.can_accept_orders WalletService.get_or_create_wallet
      walletBalance Session.open
    cases hfw : db.wallets.find? (fun p => p.user_id == d) with
    | some w => simp [hfw, ge_iff_le]
    | none =>
        simp only [hfw, DB.fresh, Session.commit, decide_eq_true_iff, ge_iff_le,
          DEFAULT_COMMISSION]
  · intro h
    rcases hca : WalletService.can_accept_orders (Session.open db) d with ⟨can, s⟩
    rw [hca] at h
    simp only at h
    subst h
    simp [get_pending_orders, hca]
  · intro h
    rcases hca : WalletService.can_accept_orders (Session.open db) d with ⟨can, s⟩
    rw [hca] at h horders
    simp only at h horders
    subst h
    have hpend : (get_pending_orders db d).1 =
        .ok ((s.pending.orders.filter
            (fun o => o.status == OrderStatus.pending)).mergeSort
          (fun a b => b.created_at ≤ a.created_at)) := by
      simp [get_pending_orders, hca]
    refine ⟨_, hpend, ?_, ?_⟩
    · rw [horders]
      exact List.mergeSort_perm _ _
    · have hs := @List.sorted_mergeSort Order
        (fun a b => decide (b.created_at ≤ a.created_at))
        (fun a b c hab hbc => by
          simp only [decide_eq_true_iff] at hab hbc ⊢
          omega)
        (fun a b => by
          simp only [Bool.or_eq_true, decide_eq_true_iff]
          omega)
        (s.pending.orders.filter (fun o => o.status == OrderStatus.pending))
      exact hs.imp (fun hab => by simpa using hab)

/-- Witness for C8: on `dbB` (driver 2 funded with 10000 ≥ 5000, one
pending order) the gate is open and the listing returns the pending
order; on `dbP` (no wallet, balance 0) the gate is closed and the listing
fails with `InsufficientBalance`. -/
theorem can_accept_orders_gate_witness :
    (∃ rows, (get_pending_orders dbB 2).1 = .ok rows ∧
      rows.Perm (dbB.orders.filter (fun o => o.status == OrderStatus.pending)) ∧
      rows.Pairwise (fun a b => b.created_at ≤ a.created_at)) ∧
    (get_pending_orders dbP 2).1 = .error .insufficientBalance :=
  ⟨(can_accept_orders_gate dbB 2).2.2 (by with_unfolding_all rfl),
   (can_accept_orders_gate dbP 2).2.1 (by with_unfolding_all rfl)⟩

/-- C5 (amended): `cancel_order` requires the actor to be the order's
customer or assigned driver — a third party gets `NotAuthorized` with the
store untouched — but it enforces no status precondition: an authorized
actor can cancel from *any* status, terminal ones included. -/
theorem cancel_requires_customer_or_driver
    (db : DB) (u : Nat) (cd : OrderCancel) (o : Order)
    (ho : db.orders.find? (fun x => x.id == cd.order_id) = some o) :
    (¬(u = o.customer_id ∨ o.driver_id = some u) →
      cancel_order db u cd = (.error .notAuthorized, db)) ∧
    ((u = o.customer_id ∨ o.driver_id = some u) →
      ∃ o', (cancel_order db u cd).1 = .ok o' ∧ o'.id = o.id ∧
        o'.status = OrderStatus.cancelled ∧ o'.cancelled_by = some u ∧
        o'.cancellation_reason = some cd.reason) := by
  constructor
  · intro h
    push_neg at h
    have hcond : (u != o.customer_id && some u != o.driver_id) = true := by
      simp only [Bool.and_eq_true, bne_iff_ne, ne_eq]
      exact ⟨h.1, fun hc => h.2 hc.symm⟩
    simp [cancel_order, Session.open, ho, hcond]
  · intro h
    have hcond : (u != o.customer_id && some u != o.driver_id) = false := by
      rcases h with h | h
      · simp [h]
      · simp [h]
    simp only [cancel_order, Session.open, Session.commit, Session.modifyPending,
      DB.updateOrder, DB.fresh, ho, hcond, Bool.false_eq_true, reduceIte]
    exact ⟨_, rfl, rfl, rfl, rfl, rfl⟩

/-- Witness for C5: on `dbLow`, user 42 (neither customer 1 nor driver 2)
gets `NotAuthorized` and the store is unchanged, while customer 1 cancels
successfully. -/
theorem cancel_requires_customer_or_driver_witness :
    (cancel_order dbLow 42 ⟨7, "nope"⟩ = (.error .notAuthorized, dbLow)) ∧
    (∃ o', (cancel_order dbLow 1 ⟨7, "mine"⟩).1 = .ok o' ∧ o'.id = oLow.id ∧
      o'.status = OrderStatus.cancelled ∧ o'.cancelled_by = some 1 ∧
      o'.cancellation_reason = some "mine") :=
  ⟨(cancel_requires_customer_or_driver dbLow 42 ⟨7, "nope"⟩ oLow rfl).1
      (by decide),
   (cancel_requires_customer_or_driver dbLow 1 ⟨7, "mine"⟩ oLow rfl).2
      (Or.inl (by decide))⟩

/-! ### List lemmas for the row-replacing ORM mutations -/

/-- Replacing the rows keyed `k` by a row whose key is `k` leaves the key
column unchanged. -/
theorem map_key_replace {α : Type} (key : α → Nat) (l : List α) (x : α) (k : Nat)
    (hk : key x = k) :
    (l.map (fun p => if key p == k then x else p)).map key = l.map key := by
  induction l with
  | nil => rfl
  | cons a tl ih =>
      simp only [List.map_cons, ih, List.cons.injEq, and_true]
      by_cases hc : (key a == k) = true
      · rw [if_pos hc, hk]
        exact (beq_iff_eq.mp hc).symm
      · rw [if_neg hc]

/-- A member of the row-replaced list is the replacement or an untouched
original row with a different key. -/
theorem mem_map_replace {α : Type} (key : α → Nat) {l : List α} {x y : α} {k : Nat}
    (hy : y ∈ l.map (fun p => if key p == k then x else p)) :
    y = x ∨ (y ∈ l ∧ ¬ key y = k) := by
  rcases List.mem_map.mp hy with ⟨p, hp, he⟩
  by_cases hc : (key p == k) = true
  · rw [if_pos hc] at he
    exact Or.inl he.symm
  · rw [if_neg hc] at he
    subst he
    exact Or.inr ⟨hp, fun hk => hc (beq_iff_eq.mpr hk)⟩

/-- A balance update (same id, same user) keeps every user represented in
the wallet table. -/
theorem exists_user_map_replace {l : List Wallet} {w w' : Wallet} {u : Nat}
    (hnd : (l.map Wallet.id).Nodup) (hw : w ∈ l) (_hid : w'.id = w.id)
    (huser : w'.user_id = w.user_id)
    (hex : ∃ p ∈ l, p.user_id = u) :
    ∃ p ∈ l.map (fun q => if q.id == w.id then w' else q), p.user_id = u := by
  obtain ⟨p, hp, hpu⟩ := hex
  by_cases hc : (p.id == w.id) = true
  · have hpw : p = w :=
      List.inj_on_of_nodup_map hnd hp hw (beq_iff_eq.mp hc)
    exact ⟨w', List.mem_map.mpr ⟨p, hp, by rw [if_pos hc]⟩,
      by rw [huser, ← hpw, hpu]⟩
  · exact ⟨p, List.mem_map.mpr ⟨p, hp, by rw [if_neg hc]⟩, hpu⟩

/-! ### Audit-trail shape lemmas -/

/-- A creation entry alone is a well-formed trail for a PENDING order. -/
theorem GoodLog.single (o : Order) (l : OrderStatusLog)
    (h1 : l.old_status = none) (h2 : l.new_status = .pending)
    (hst : o.status = .pending) :
    GoodLog o [l] :=
  ⟨⟨l, [], rfl, h1, h2⟩, List.chain'_singleton l, l, rfl, by rw [h2, hst]⟩

/-- Appending an entry whose `old_status` is the order's current status
keeps the trail well-formed for the transitioned order. -/
theorem GoodLog.append_step {o o' : Order} {L : List OrderStatusLog}
    (h : GoodLog o L) (l : OrderStatusLog)
    (hold : l.old_status = some o.status) (hnew : l.new_status = o'.status) :
    GoodLog o' (L ++ [l]) := by
  obtain ⟨⟨l0, rest, hL, h1, h2⟩, hchain, ll, hlast, h3⟩ := h
  refine ⟨⟨l0, rest ++ [l], by rw [hL]; rfl, h1, h2⟩, ?_, l, ?_, hnew⟩
  · refine List.Chain'.append hchain (List.chain'_singleton l) ?_
    intro x hx y hy
    rw [hlast, Option.mem_def, Option.some.injEq] at hx
    simp only [List.head?_cons, Option.mem_def, Option.some.injEq] at hy
    subst hx
    subst hy
    rw [hold, h3]
  · rw [List.getLast?_concat]

/-- The empty store satisfies the invariant. -/
theorem inv_empty : Inv DB.empty := by
  constructor <;> simp [DB.empty, logsFor]

/-- Lazy wallet creation preserves the invariant. -/
theorem Inv.append_wallet {db : DB} (h : Inv db) (u : Nat) :
    Inv { db with wallets := db.wallets ++ [⟨db.clock, u, 0⟩],
                  clock := db.clock + 1 } := by
  obtain ⟨h1, h2, h3, h4, h5, h6, h7, h8, h9, h10, h11, h12, h13⟩ := h
  refine ⟨fun o ho => Nat.lt_succ_of_lt (h1 o ho), h2, ?_, ?_,
    fun l hl => Nat.lt_succ_of_lt (h5 l hl),
    fun l hl => Nat.lt_succ_of_lt (h6 l hl), h7,
    fun t ht oid hoid => Nat.lt_succ_of_lt (h8 t ht oid hoid), h9, ?_,
    h11, h12, fun o ho => h13 o ho⟩
  · intro w hw
    rcases List.mem_append.mp hw with hw | hw
    · exact Nat.lt_succ_of_lt (h3 w hw)
    · rw [List.mem_singleton.mp hw]
      exact Nat.lt_succ_self _
  · rw [List.map_append, List.nodup_append]
    refine ⟨h4, List.nodup_singleton _, ?_⟩
    intro a ha hb
    rw [List.map_singleton, List.mem_singleton] at hb
    rcases List.mem_map.mp ha with ⟨w, hwm, hwe⟩
    have hlt := h3 w hwm
    rw [hwe, hb] at hlt
    exact lt_irrefl _ hlt
  · intro o ho d hd
    obtain ⟨w, hwm, hwu⟩ := h10 o ho d hd
    exact ⟨w, List.mem_append_left _ hwm, hwu⟩

/-- On a clean request session, `get_or_create_wallet` returns a clean
session over a store with the same orders, logs and transactions, holding
a wallet for the user, and preserves the invariant. -/
theorem goc_clean (db : DB) (u : Nat) :
    ∃ dbW w, WalletService.get_or_create_wallet (Session.open db) u =
        (w, Session.open dbW) ∧
      dbW.orders = db.orders ∧ dbW.logs = db.logs ∧ dbW.txns = db.txns ∧
      db.clock ≤ dbW.clock ∧ w ∈ dbW.wallets ∧ w.user_id = u ∧
      (Inv db → Inv dbW) := by
  unfold WalletService.get_or_create_wallet
  cases hfw : db.wallets.find? (fun p => p.user_id == u) with
  | some w =>
      refine ⟨db, w, ?_, rfl, rfl, rfl, le_refl _,
        List.mem_of_find?_eq_some hfw, by simpa using List.find?_some hfw, id⟩
      simp [Session.open, hfw]
  | none =>
      refine ⟨{ db with wallets := db.wallets ++ [⟨db.clock, u, 0⟩], clock := db.clock + 1 }, ⟨db.clock, u, 0⟩, ?_, rfl, rfl, rfl, Nat.le_succ _, by simp, rfl, fun h => h.append_wallet u⟩
      simp [Session.open, hfw, DB.fresh, Session.commit]

/-- Order creation — a fresh PENDING driverless order plus its creation
audit entry — preserves the invariant. -/
theorem Inv.append_order_and_log {db : DB} (h : Inv db) (N : Order)
    (L : OrderStatusLog)
    (hNid : N.id = db.clock) (hNst : N.status = .pending)
    (hNdrv : N.driver_id = none)
    (hLo : L.order_id = N.id) (hLold : L.old_status = none)
    (hLnew : L.new_status = .pending) (hLts : L.timestamp = db.clock + 1) :
    Inv { orders := db.orders ++ [N], logs := db.logs ++ [L],
          wallets := db.wallets, txns := db.txns,
          clock := db.clock + 1 + 1 } := by
  obtain ⟨h1, h2, h3, h4, h5, h6, h7, h8, h9, h10, h11, h12, h13⟩ := h
  have hmemo : ∀ x, x ∈ db.orders ++ [N] → x ∈ db.orders ∨ x = N := by
    intro x hx
    rcases List.mem_append.mp hx with hx | hx
    · exact Or.inl hx
    · exact Or.inr (List.mem_singleton.mp hx)
  have hfil : ∀ oid : Nat, oid ≠ N.id →
      (db.logs ++ [L]).filter (fun l => l.order_id == oid) =
        db.logs.filter (fun l => l.order_id == oid) := by
    intro oid hne
    rw [List.filter_append]
    have hLb : (L.order_id == oid) = false := by
      rw [hLo]
      exact beq_eq_false_iff_ne.mpr (fun hc => hne hc.symm)
    simp [List.filter_cons, hLb]
  refine ⟨?_, ?_, ?_, ?_, ?_, ?_, ?_, ?_, ?_, ?_, ?_, ?_, ?_⟩ <;> dsimp only
  · intro o ho
    rcases hmemo o ho with ho | ho
    · have := h1 o ho; omega
    · rw [ho, hNid]; omega
  · rw [List.map_append, List.nodup_append]
    refine ⟨h2, by simp, ?_⟩
    intro a ha hb
    simp only [List.map_singleton, List.mem_singleton] at hb
    rcases List.mem_map.mp ha with ⟨o, hom, hoe⟩
    have := h1 o hom
    rw [hoe, hb, hNid] at this
    exact lt_irrefl _ this
  · intro w hw
    have := h3 w hw
    omega
  · exact h4
  · intro l hl
    rcases List.mem_append.mp hl with hl | hl
    · have := h5 l hl; omega
    · rw [List.mem_singleton.mp hl, hLts]; omega
  · intro l hl
    rcases List.mem_append.mp hl with hl | hl
    · have := h6 l hl; omega
    · rw [List.mem_singleton.mp hl, hLo, hNid]; omega
  · rw [List.pairwise_append]
    refine ⟨h7, by simp, ?_⟩
    intro a ha b hb
    rw [List.mem_singleton.mp hb, hLts]
    have := h5 a ha
    omega
  · intro t ht oid hoid
    have := h8 t ht oid hoid
    omega
  · intro o ho hdn
    rcases hmemo o ho with ho | ho
    · exact h9 o ho hdn
    · rw [ho, hNst]
      exact Or.inl rfl
  · intro o ho d hd
    rcases hmemo o ho with ho | ho
    · exact h10 o ho d hd
    · rw [ho, hNdrv] at hd
      exact absurd hd (Option.noConfusion)
  · intro o ho hst
    rcases hmemo o ho with ho | ho
    · exact h11 o ho hst
    · rw [ho, hNst] at hst
      exact absurd hst (by simp)
  · intro o ho t ht hto
    rcases hmemo o ho with ho | ho
    · exact h12 o ho t ht hto
    · rw [ho, hNid] at hto
      have := h8 t ht db.clock hto
      omega
  · intro o ho
    show GoodLog o ((db.logs ++ [L]).filter (fun l => l.order_id == o.id))
    rcases hmemo o ho with ho | ho
    · have hne : o.id ≠ N.id := by
        have := h1 o ho
        rw [hNid]
        omega
      rw [hfil o.id hne]
      exact h13 o ho
    · subst ho
      have heq : (db.logs ++ [L]).filter (fun l => l.order_id == o.id) = [L] := by
        rw [List.filter_append]
        have hLb : (L.order_id == o.id) = true := by
          simp [hLo]
        have hnil : db.logs.filter (fun l => l.order_id == o.id) = [] := by
          rw [List.filter_eq_nil_iff]
          intro l hl
          have := h6 l hl
          rw [hNid] at *
          simp only [beq_iff_eq]
          omega
        rw [hnil]
        simp [List.filter_cons, hLb]
      rw [heq]
      exact GoodLog.single o L hLold hLnew hNst

/-- A status transition — replacing one order row and appending its audit
entry — preserves the invariant, provided the new row keeps id and
commission, respects the driver/status relationship, and a COMPLETED
result is already backed by a deduction. -/
theorem Inv.replace_order_append_log {db : DB} (h : Inv db) (o o' : Order)
    (L : OrderStatusLog)
    (ho : o ∈ db.orders) (hid : o'.id = o.id)
    (hcomm : o'.commission = o.commission)
    (hdn : o'.driver_id = none →
      o'.status = OrderStatus.pending ∨ o'.status = OrderStatus.cancelled)
    (hct : o'.status = OrderStatus.completed →
      ∃ t ∈ db.txns, t.type = TransactionType.deduction ∧ t.order_id = some o.id)
    (hdw : ∀ d, o'.driver_id = some d → ∃ w ∈ db.wallets, w.user_id = d)
    (hLo : L.order_id = o.id) (hLold : L.old_status = some o.status)
    (hLnew : L.new_status = o'.status) (hLts : L.timestamp = db.clock + 1) :
    Inv { orders := db.orders.map (fun p => if p.id == o.id then o' else p),
          logs := db.logs ++ [L], wallets := db.wallets, txns := db.txns,
          clock := db.clock + 1 + 1 } := by
  obtain ⟨h1, h2, h3, h4, h5, h6, h7, h8, h9, h10, h11, h12, h13⟩ := h
  have hids := map_key_replace Order.id db.orders o' o.id hid
  have hmem : ∀ x ∈ db.orders.map (fun p => if p.id == o.id then o' else p),
      x = o' ∨ (x ∈ db.orders ∧ ¬ x.id = o.id) :=
    fun x hx => mem_map_replace Order.id hx
  have hfil : ∀ oid : Nat, oid ≠ o.id →
      (db.logs ++ [L]).filter (fun l => l.order_id == oid) =
        db.logs.filter (fun l => l.order_id == oid) := by
    intro oid hne
    rw [List.filter_append]
    have hLb : (L.order_id == oid) = false := by
      rw [hLo]
      exact beq_eq_false_iff_ne.mpr (fun hc => hne hc.symm)
    simp [List.filter_cons, hLb]
  have hfilo : (db.logs ++ [L]).filter (fun l => l.order_id == o.id) =
      logsFor db o.id ++ [L] := by
    rw [List.filter_append]
    have hLb : (L.order_id == o.id) = true := by simp [hLo]
    simp [List.filter_cons, hLb, logsFor]
  refine ⟨?_, ?_, ?_, ?_, ?_, ?_, ?_, ?_, ?_, ?_, ?_, ?_, ?_⟩ <;> dsimp only
  · intro x hx
    rcases hmem x hx with hx | ⟨hx, _⟩
    · rw [hx, hid]
      have := h1 o ho
      omega
    · have := h1 x hx
      omega
  · rw [hids]
    exact h2
  · intro w hw
    have := h3 w hw
    omega
  · exact h4
  · intro l hl
    rcases List.mem_append.mp hl with hl | hl
    · have := h5 l hl; omega
    · rw [List.mem_singleton.mp hl, hLts]; omega
  · intro l hl
    rcases List.mem_append.mp hl with hl | hl
    · have := h6 l hl; omega
    · rw [List.mem_singleton.mp hl, hLo]
      have := h1 o ho
      omega
  · rw [List.pairwise_append]
    refine ⟨h7, by simp, ?_⟩
    intro a ha b hb
    rw [List.mem_singleton.mp hb, hLts]
    have := h5 a ha
    omega
  · intro t ht oid hoid
    have := h8 t ht oid hoid
    omega
  · intro x hx hdn'
    rcases hmem x hx with hx | ⟨hx, _⟩
    · rw [hx] at hdn' ⊢
      exact hdn hdn'
    · exact h9 x hx hdn'
  · intro x hx d hd
    rcases hmem x hx with hx | ⟨hx, _⟩
    · rw [hx] at hd
      exact hdw d hd
    · exact h10 x hx d hd
  · intro x hx hst
    rcases hmem x hx with hx | ⟨hx, _⟩
    · subst hx
      obtain ⟨t, htm, htt, hto⟩ := hct hst
      exact ⟨t, htm, htt, by rw [hid]; exact hto⟩
    · exact h11 x hx hst
  · intro x hx t ht hto
    rcases hmem x hx with hx | ⟨hx, _⟩
    · subst hx
      rw [hid] at hto
      obtain ⟨htt, hta⟩ := h12 o ho t ht hto
      exact ⟨htt, by rw [hta, hcomm]⟩
    · exact h12 x hx t ht hto
  · intro x hx
    show GoodLog x ((db.logs ++ [L]).filter (fun l => l.order_id == x.id))
    rcases hmem x hx with hx | ⟨hx, hne⟩
    · subst hx
      rw [hid, hfilo]
      exact GoodLog.append_step (h13 o ho) L hLold hLnew
    · rw [hfil x.id hne]
      exact h13 x hx

/-- The COMPLETED transition with a successful commission deduction —
replacing the order row, updating the wallet balance, appending the
DEDUCTION transaction and the audit entry — preserves the invariant. -/
theorem Inv.replace_order_append_log_deduct {db : DB} (h : Inv db)
    (o o' : Order) (w w' : Wallet) (t : Transaction) (L : OrderStatusLog)
    (d : Nat)
    (ho : o ∈ db.orders) (hid : o'.id = o.id)
    (hcomm : o'.commission = o.commission)
    (hod : o.driver_id = some d) (hdrv : o'.driver_id = o.driver_id)
    (hw : w ∈ db.wallets) (hw'id : w'.id = w.id)
    (hw'user : w'.user_id = w.user_id)
    (htt : t.type = TransactionType.deduction)
    (hto : t.order_id = some o.id) (hta : t.amount = o.commission)
    (hLo : L.order_id = o.id) (hLold : L.old_status = some o.status)
    (hLnew : L.new_status = o'.status)
    (hLts : L.timestamp = db.clock + 1 + 1) :
    Inv { orders := db.orders.map (fun p => if p.id == o.id then o' else p),
          logs := db.logs ++ [L],
          wallets := db.wallets.map (fun q => if q.id == w.id then w' else q),
          txns := db.txns ++ [t],
          clock := db.clock + 1 + 1 + 1 } := by
  obtain ⟨h1, h2, h3, h4, h5, h6, h7, h8, h9, h10, h11, h12, h13⟩ := h
  have hids := map_key_replace Order.id db.orders o' o.id hid
  have hwids := map_key_replace Wallet.id db.wallets w' w.id hw'id
  have hmem : ∀ x ∈ db.orders.map (fun p => if p.id == o.id then o' else p),
      x = o' ∨ (x ∈ db.orders ∧ ¬ x.id = o.id) :=
    fun x hx => mem_map_replace Order.id hx
  have hfil : ∀ oid : Nat, oid ≠ o.id →
      (db.logs ++ [L]).filter (fun l => l.order_id == oid) =
        db.logs.filter (fun l => l.order_id == oid) := by
    intro oid hne
    rw [List.filter_append]
    have hLb : (L.order_id == oid) = false := by
      rw [hLo]
      exact beq_eq_false_iff_ne.mpr (fun hc => hne hc.symm)
    simp [List.filter_cons, hLb]
  have hfilo : (db.logs ++ [L]).filter (fun l => l.order_id == o.id) =
      logsFor db o.id ++ [L] := by
    rw [List.filter_append]
    have hLb : (L.order_id == o.id) = true := by simp [hLo]
    simp [List.filter_cons, hLb, logsFor]
  refine ⟨?_, ?_, ?_, ?_, ?_, ?_, ?_, ?_, ?_, ?_, ?_, ?_, ?_⟩ <;> dsimp only
  · intro x hx
    rcases hmem x hx with hx | ⟨hx, _⟩
    · rw [hx, hid]
      have := h1 o ho
      omega
    · have := h1 x hx
      omega
  · rw [hids]
    exact h2
  · intro q hq
    rcases mem_map_replace Wallet.id hq with hq | ⟨hq, _⟩
    · rw [hq, hw'id]
      have := h3 w hw
      omega
    · have := h3 q hq
      omega
  · rw [hwids]
    exact h4
  · intro l hl
    rcases List.mem_append.mp hl with hl | hl
    · have := h5 l hl; omega
    · rw [List.mem_singleton.mp hl, hLts]; omega
  · intro l hl
    rcases List.mem_append.mp hl with hl | hl
    · have := h6 l hl; omega
    · rw [List.mem_singleton.mp hl, hLo]
      have := h1 o ho
      omega
  · rw [List.pairwise_append]
    refine ⟨h7, by simp, ?_⟩
    intro a ha b hb
    rw [List.mem_singleton.mp hb, hLts]
    have := h5 a ha
    omega
  · intro t' ht' oid hoid
    rcases List.mem_append.mp ht' with ht' | ht'
    · have := h8 t' ht' oid hoid
      omega
    · rw [List.mem_singleton.mp ht', hto] at hoid
      have hoo : oid = o.id := (Option.some.inj hoid).symm
      have := h1 o ho
      omega
  · intro x hx hdn'
    rcases hmem x hx with hx | ⟨hx, _⟩
    · rw [hx, hdrv, hod] at hdn'
      exact absurd hdn' (Option.noConfusion)
    · exact h9 x hx hdn'
  · intro x hx d' hd'
    rcases hmem x hx with hx | ⟨hx, _⟩
    · rw [hx, hdrv] at hd'
      exact exists_user_map_replace h4 hw hw'id hw'user (h10 o ho d' hd')
    · exact exists_user_map_replace h4 hw hw'id hw'user (h10 x hx d' hd')
  · intro x hx hst
    rcases hmem x hx with hx | ⟨hx, _⟩
    · subst hx
      exact ⟨t, List.mem_append_right _ (List.mem_singleton_self t), htt,
        by rw [hid]; exact hto⟩
    · obtain ⟨t0, h0m, h0t, h0o⟩ := h11 x hx hst
      exact ⟨t0, List.mem_append_left _ h0m, h0t, h0o⟩
  · intro x hx t' ht' hto'
    rcases hmem x hx with hx | ⟨hx, hne⟩
    · subst hx
      rw [hid] at hto'
      rcases List.mem_append.mp ht' with ht' | ht'
      · obtain ⟨h0t, h0a⟩ := h12 o ho t' ht' hto'
        exact ⟨h0t, by rw [h0a, hcomm]⟩
      · rw [List.mem_singleton.mp ht']
        exact ⟨htt, by rw [hta, hcomm]⟩
    · rcases List.mem_append.mp ht' with ht' | ht'
      · exact h12 x hx t' ht' hto'
      · rw [List.mem_singleton.mp ht', hto] at hto'
        exact absurd (Option.some.inj hto').symm hne
  · intro x hx
    show GoodLog x ((db.logs ++ [L]).filter (fun l => l.order_id == x.id))
    rcases hmem x hx with hx | ⟨hx, hne⟩
    · subst hx
      rw [hid, hfilo]
      exact GoodLog.append_step (h13 o ho) L hLold hLnew
    · rw [hfil x.id hne]
      exact h13 x hx

/-! ### Invariant preservation of each entry point -/

theorem inv_create_taxi (m : MapsService) (cust : Nat) (req : TaxiOrderCreate)
    {db : DB} (h : Inv db) : Inv (create_taxi_order m db cust req).2 := by
  unfold create_taxi_order
  by_cases hp : (!truthyQ (m.calculate_price req.pickup.latitude
      req.pickup.longitude req.dropoff.latitude req.dropoff.longitude)) = true
  · simp only [Session.open, hp, reduceIte]
    exact h
  · simp only [Session.open, Session.commit, DB.fresh, if_neg hp]
    exact h.append_order_and_log _ _ rfl rfl rfl rfl rfl rfl rfl

theorem inv_create_delivery (m : MapsService) (cust : Nat)
    (req : DeliveryOrderCreate) (tok : String) {db : DB} (h : Inv db) :
    Inv (create_delivery_order m db cust req tok).2 := by
  unfold create_delivery_order
  by_cases hp : (!truthyQ (m.calculate_price req.pickup.latitude
      req.pickup.longitude req.dropoff.latitude req.dropoff.longitude)) = true
  · simp only [Session.open, hp, reduceIte]
    exact h
  · simp only [Session.open, Session.commit, DB.fresh, if_neg hp]
    exact h.append_order_and_log _ _ rfl rfl rfl rfl rfl rfl rfl

theorem inv_list_pending (d : Nat) {db : DB} (h : Inv db) :
    Inv (get_pending_orders db d).2 := by
  obtain ⟨dbW, w, hgoc, _, _, _, _, _, _, hInv⟩ := goc_clean db d
  unfold get_pending_orders WalletService.can_accept_orders
  simp only [hgoc]
  by_cases hgate : (decide (w.balance ≥ DEFAULT_COMMISSION)) = true <;>
    simp [hgate, Session.open] <;> exact hInv h

theorem inv_topup (a : Nat) (req : WalletTopUp) (ex : Bool) {db : DB}
    (h : Inv db) : Inv (top_up_wallet db a req ex).2 := by
  cases ex with
  | false => simpa [top_up_wallet, Session.open] using h
  | true =>
      obtain ⟨dbW, w, hgoc, hord, hlog, htxn, hclk, hwmem, hwuser, hInv⟩ :=
        goc_clean db req.driver_id
      have hW := hInv h
      unfold top_up_wallet WalletService.top_up
      simp only [hgoc]
      simp only [Session.open, Session.modifyPending, Session.commit,
        DB.updateWallet, DB.fresh, Bool.not_true, Bool.false_eq_true, reduceIte]
      obtain ⟨h1, h2, h3, h4, h5, h6, h7, h8, h9, h10, h11, h12, h13⟩ := hW
      have hwids := map_key_replace Wallet.id dbW.wallets
        { w with balance := w.balance + req.amount } w.id rfl
      refine ⟨?_, ?_, ?_, ?_, ?_, ?_, ?_, ?_, ?_, ?_, ?_, ?_, ?_⟩ <;> dsimp only
      · intro o ho
        have := h1 o ho
        omega
      · exact h2
      · intro q hq
        rcases mem_map_replace Wallet.id hq with hq | ⟨hq, _⟩
        · rw [hq]
          have := h3 w hwmem
          dsimp only
          omega
        · have := h3 q hq
          omega
      · rw [hwids]
        exact h4
      · intro l hl
        have := h5 l hl
        omega
      · intro l hl
        have := h6 l hl
        omega
      · exact h7
      · intro t ht oid hoid
        rcases List.mem_append.mp ht with ht | ht
        · have := h8 t ht oid hoid
          omega
        · rw [List.mem_singleton.mp ht] at hoid
          exact absurd hoid (Option.noConfusion)
      · exact h9
      · intro o ho d' hd'
        exact exists_user_map_replace h4 hwmem rfl rfl (h10 o ho d' hd')
      · intro o ho hst
        obtain ⟨t0, h0m, h0t, h0o⟩ := h11 o ho hst
        exact ⟨t0, List.mem_append_left _ h0m, h0t, h0o⟩
      · intro o ho t ht hto
        rcases List.mem_append.mp ht with ht | ht
        · exact h12 o ho t ht hto
        · rw [List.mem_singleton.mp ht] at hto
          exact absurd hto (Option.noConfusion)
      · exact h13

theorem inv_cancel (u : Nat) (req : OrderCancel) {db : DB} (h : Inv db) :
    Inv (cancel_order db u req).2 := by
  unfold cancel_order
  simp only [Session.open, Session.commit, Session.modifyPending,
    DB.updateOrder, DB.fresh]
  cases hfo : db.orders.find? (fun o => o.id == req.order_id) with
  | none => exact h
  | some o =>
      have hom : o ∈ db.orders := List.mem_of_find?_eq_some hfo
      by_cases hauth : (u != o.customer_id && some u != o.driver_id) = true
      · simp only [hauth, reduceIte]
        exact h
      · rw [Bool.not_eq_true] at hauth
        simp only [hauth, Bool.false_eq_true, reduceIte]
        refine h.replace_order_append_log o _ _ hom rfl rfl ?_ ?_ ?_ rfl rfl rfl rfl
        · intro _
          exact Or.inr rfl
        · intro hc
          exact absurd
            (show OrderStatus.cancelled = OrderStatus.completed from hc)
            (by decide)
        · intro d' hd'
          exact h.driver_wallet o hom d' hd'

theorem inv_accept (d : Nat) (req : OrderAccept) {db : DB} (h : Inv db) :
    Inv (accept_order db d req).2 := by
  obtain ⟨dbW, w, hgoc, hord, hlog, htxn, hclk, hwmem, hwuser, hInv⟩ :=
    goc_clean db d
  have hW := hInv h
  unfold accept_order WalletService.can_accept_orders
  simp only [hgoc]
  simp only [Session.open, Session.commit, Session.modifyPending,
    DB.updateOrder, DB.fresh]
  by_cases hgate : (decide (w.balance ≥ DEFAULT_COMMISSION)) = true
  · simp only [hgate, Bool.not_true, Bool.false_eq_true, reduceIte]
    cases hfo : dbW.orders.find? (fun o => o.id == req.order_id) with
    | none => exact hW
    | some o =>
        have hom : o ∈ dbW.orders := List.mem_of_find?_eq_some hfo
        by_cases hpend : (o.status != OrderStatus.pending) = true
        · simp only [hpend, reduceIte]
          exact hW
        · rw [Bool.not_eq_true] at hpend
          simp only [hpend, Bool.false_eq_true, reduceIte]
          refine hW.replace_order_append_log o _ _ hom rfl rfl ?_ ?_ ?_ rfl rfl rfl rfl
          · intro he
            exact absurd (show (some d : Option Nat) = none from he)
              (Option.noConfusion)
          · intro hc
            exact absurd
              (show OrderStatus.accepted = OrderStatus.completed from hc)
              (by decide)
          · intro d' hd'
            have hd'' : d = d' :=
              Option.some.inj (show (some d : Option Nat) = some d' from hd')
            exact ⟨w, hwmem, by rw [hwuser, hd'']⟩
  · rw [Bool.not_eq_true] at hgate
    simp only [hgate, Bool.not_false, reduceIte]
    exact hW

theorem inv_advance (d : Nat) (req : OrderUpdateStatus) {db : DB} (h : Inv db) :
    Inv (update_order_status db d req).2 := by
  unfold update_order_status
  simp only [Session.open, Session.commit, Session.modifyPending,
    DB.updateOrder, DB.updateWallet, DB.fresh,
    WalletService.deduct_commission, WalletService.get_or_create_wallet,
    Option.getD]
  cases hfo : db.orders.find?
      (fun o => o.id == req.order_id && o.driver_id == some d) with
  | none => exact h
  | some o =>
      have hom : o ∈ db.orders := List.mem_of_find?_eq_some hfo
      have hpred := List.find?_some hfo
      rw [Bool.and_eq_true] at hpred
      have hdrv : o.driver_id = some d := by simpa using hpred.2
      by_cases hst : (req.status == OrderStatus.completed) = true
      · obtain ⟨w0, hw0m, hw0u⟩ := h.driver_wallet o hom d hdrv
        cases hfw : db.wallets.find? (fun p => p.user_id == d) with
        | none =>
            exfalso
            have := List.find?_eq_none.mp hfw w0 hw0m
            simp [hw0u] at this
        | some w =>
            simp only [hst, reduceIte]
            by_cases hbal : w.balance < o.commission
            · simp only [if_pos hbal]
              exact h
            · simp only [if_neg hbal]
              exact h.replace_order_append_log_deduct o _ w _ _ _ d hom rfl rfl
                hdrv rfl (List.mem_of_find?_eq_some hfw) rfl rfl rfl rfl rfl
                rfl rfl rfl rfl
      · rw [Bool.not_eq_true] at hst
        simp only [hst, Bool.false_eq_true, reduceIte]
        refine h.replace_order_append_log o _ _ hom rfl rfl ?_ ?_ ?_ rfl rfl rfl rfl
        · intro he
          have he' : o.driver_id = none := he
          rw [hdrv] at he'
          exact Option.noConfusion he'
        · intro hc
          have hc' : req.status = OrderStatus.completed := hc
          rw [hc'] at hst
          exact absurd hst (by decide)
        · intro d' hd'
          have hd'' : o.driver_id = some d' := hd'
          exact h.driver_wallet o hom d' hd''

/-- Every reachable store satisfies the invariant. -/
theorem reachable_inv {db : DB} (h : Reachable db) : Inv db := by
  induction h with
  | empty => exact inv_empty
  | create_taxi m cust req hr heq ih => exact heq ▸ inv_create_taxi m cust req ih
  | create_delivery m cust req tok hr heq ih =>
      exact heq ▸ inv_create_delivery m cust req tok ih
  | accept d req hr heq ih => exact heq ▸ inv_accept d req ih
  | advance d req hr heq ih => exact heq ▸ inv_advance d req ih
  | cancel u req hr heq ih => exact heq ▸ inv_cancel u req ih
  | list_pending d hr heq ih => exact heq ▸ inv_list_pending d ih
  | wallet_topup a req ex hr heq ih => exact heq ▸ inv_topup a req ex ih

/-! ### Claim theorems: reachable-state invariants -/

/-- C2 (amended): in every reachable store, an order with a null
`driver_id` is PENDING **or** CANCELLED (cancelling a still-PENDING order
is allowed and keeps `driver_id` null, so the spec's "null iff PENDING"
fails in that direction; the converse also fails because a driver may
reset their order's status to PENDING — see the counterexample). -/
theorem driver_null_only_pending_or_cancelled {db : DB} (h : Reachable db)
    (oid : Nat) (o : Order)
    (ho : db.orders.find? (fun x => x.id == oid) = some o)
    (hdn : o.driver_id = none) :
    o.status = OrderStatus.pending ∨ o.status = OrderStatus.cancelled :=
  (reachable_inv h).driver_none o (List.mem_of_find?_eq_some ho) hdn

/-- Witness for C2 (amended), on the reachable store `dbQ`. -/
theorem driver_null_only_pending_or_cancelled_witness :
    (dbQ.orders.headD oLow).status = OrderStatus.pending ∨
      (dbQ.orders.headD oLow).status = OrderStatus.cancelled :=
  driver_null_only_pending_or_cancelled reachable_dbQ 0 (dbQ.orders.headD oLow)
    (by with_unfolding_all rfl) (by with_unfolding_all rfl)

/-- C3 (amended): in every reachable store, a COMPLETED order has *at
least one* DEDUCTION transaction referencing it, and *every* transaction
referencing the order is a DEDUCTION whose amount equals the commission
recorded on the order (which is fixed at creation); uniqueness fails
because a repeated COMPLETED transition deducts again — see the
counterexample. -/
theorem completed_has_deduction_matching_commission {db : DB}
    (h : Reachable db) (oid : Nat) (o : Order)
    (ho : db.orders.find? (fun x => x.id == oid) = some o) :
    (o.status = OrderStatus.completed →
      ∃ t ∈ db.txns, t.type = TransactionType.deduction ∧
        t.order_id = some o.id) ∧
    (∀ t ∈ db.txns, t.order_id = some o.id →
      t.type = TransactionType.deduction ∧ t.amount = o.commission) :=
  ⟨(reachable_inv h).completed_txn o (List.mem_of_find?_eq_some ho),
   (reachable_inv h).txn_ref o (List.mem_of_find?_eq_some ho)⟩

/-- Witness for C3 (amended), on the reachable store `dbD` (order 2
completed once). -/
theorem completed_has_deduction_matching_commission_witness :
    ((dbD.orders.headD oLow).status = OrderStatus.completed →
      ∃ t ∈ dbD.txns, t.type = TransactionType.deduction ∧
        t.order_id = some (dbD.orders.headD oLow).id) ∧
    (∀ t ∈ dbD.txns, t.order_id = some (dbD.orders.headD oLow).id →
      t.type = TransactionType.deduction ∧
        t.amount = (dbD.orders.headD oLow).commission) :=
  completed_has_deduction_matching_commission reachable_dbD 2
    (dbD.orders.headD oLow) (by with_unfolding_all rfl)

/-- C4 (amended): in every reachable store, an order's audit trail read
back through `get_order_status_history` is exactly the stored trail in
strictly ascending timestamp order, starting with the creation entry
(`old=null, new=PENDING`), with each entry's `old_status` equal to the
previous entry's `new_status` and the last entry's `new_status` equal to
the order's current status.  The trail need *not* be a valid path of the
spec's state machine, since `update_order_status` never checks transition
legality — see the counterexample. -/
theorem audit_trail_chain_and_order {db : DB} (h : Reachable db)
    (oid : Nat) (o : Order)
    (ho : db.orders.find? (fun x => x.id == oid) = some o) :
    get_order_status_history db o.id = logsFor db o.id ∧
    (logsFor db o.id).Pairwise (fun a b => a.timestamp < b.timestamp) ∧
    GoodLog o (logsFor db o.id) := by
  have hInv := reachable_inv h
  have hmem := List.mem_of_find?_eq_some ho
  have hsorted : (logsFor db o.id).Pairwise
      (fun a b => a.timestamp < b.timestamp) :=
    hInv.logs_sorted.sublist (List.filter_sublist _)
  refine ⟨?_, hsorted, hInv.logs_chain o hmem⟩
  unfold get_order_status_history
  exact List.mergeSort_of_sorted
    (hsorted.imp fun hab => by simpa using Nat.le_of_lt hab)

/-- Witness for C4 (amended), on the reachable store `dbD`. -/
theorem audit_trail_chain_and_order_witness :
    get_order_status_history dbD (dbD.orders.headD oLow).id =
        logsFor dbD (dbD.orders.headD oLow).id ∧
    (logsFor dbD (dbD.orders.headD oLow).id).Pairwise
      (fun a b => a.timestamp < b.timestamp) ∧
    GoodLog (dbD.orders.headD oLow) (logsFor dbD (dbD.orders.headD oLow).id) :=
  audit_trail_chain_and_order reachable_dbD 2 (dbD.orders.headD oLow)
    (by with_unfolding_all rfl)

end DOT
